import Mathlib

/-!
Verification of the Gauss-method orbit determination code
(`orbitdeterminator/kep_determination/gauss_method.py`).

The numerical code is embedded shallowly: Python floats become elements of a
linear ordered field `K` (instantiated at `ℚ` for concrete evaluations and at
`ℝ` for the trigonometric parts), numpy 3-vectors become the `Vec3` structure,
and the external numeric primitives imported by the source (`numpy.sqrt`,
`poliastro.stumpff.c2`/`c3`, `numpy.roots`) are passed as explicit function
or list parameters.  Division by zero is the field default (`x / 0 = 0`);
claims about degenerate denominators carry explicit nonzero hypotheses.
-/

section Vectors

variable {K : Type} [LinearOrderedField K]

/-- Cartesian 3-vector, the embedding of a numpy array of shape (3,). -/
structure Vec3 (K : Type) where
  x : K
  y : K
  z : K
deriving DecidableEq, Repr

/-- Embedding of `numpy.dot` on 3-vectors. -/
def dotv (a b : Vec3 K) : K := a.x * b.x + a.y * b.y + a.z * b.z

/-- Embedding of `numpy.cross` on 3-vectors. -/
def crossv (a b : Vec3 K) : Vec3 K :=
  ⟨a.y * b.z - a.z * b.y, a.z * b.x - a.x * b.z, a.x * b.y - a.y * b.x⟩

/-- Scalar times vector (numpy broadcasting `c * v`). -/
def smulv (c : K) (a : Vec3 K) : Vec3 K := ⟨c * a.x, c * a.y, c * a.z⟩

/-- Vector addition. -/
def addv (a b : Vec3 K) : Vec3 K := ⟨a.x + b.x, a.y + b.y, a.z + b.z⟩

/-- Vector subtraction. -/
def subv (a b : Vec3 K) : Vec3 K := ⟨a.x - b.x, a.y - b.y, a.z - b.z⟩

/-- Vector division by a scalar (numpy `v / c`). -/
def divv (a : Vec3 K) (c : K) : Vec3 K := ⟨a.x / c, a.y / c, a.z / c⟩

end Vectors

/-- Embedding of `losvector(ra_rad, dec_rad)`: line-of-sight unit vector from
right ascension and declination (source lines 231-245). -/
noncomputable def losvector (ra_rad dec_rad : ℝ) : Vec3 ℝ :=
  ⟨Real.cos ra_rad * Real.cos dec_rad,
   Real.sin ra_rad * Real.cos dec_rad,
   Real.sin dec_rad⟩

/-- Embedding of Python's float modulus `a % b`: for `b > 0` Python returns
`a - b * floor(a / b)`, a value in `[0, b)` with the sign of the divisor. -/
noncomputable def pymod (a b : ℝ) : ℝ := a - b * (⌊a / b⌋ : ℤ)

/-- Embedding of `angle_diff_rad(a1_rad, a2_rad)` (source lines 749-765):
`r = (a2 - a1) % (2*pi)`, then `if r >= pi: r -= 2*pi`. -/
noncomputable def angle_diff_rad (a1_rad a2_rad : ℝ) : ℝ :=
  let r := pymod (a2_rad - a1_rad) (2 * Real.pi)
  if r ≥ Real.pi then r - 2 * Real.pi else r

lemma pymod_eq_fract_mul (a b : ℝ) (hb : b ≠ 0) :
    pymod a b = b * Int.fract (a / b) := by
  unfold pymod Int.fract
  field_simp

lemma pymod_nonneg (a b : ℝ) (hb : 0 < b) : 0 ≤ pymod a b := by
  rw [pymod_eq_fract_mul a b hb.ne']
  exact mul_nonneg hb.le (Int.fract_nonneg _)

lemma pymod_lt (a b : ℝ) (hb : 0 < b) : pymod a b < b := by
  rw [pymod_eq_fract_mul a b hb.ne']
  calc b * Int.fract (a / b) < b * 1 := by
        exact (mul_lt_mul_left hb).mpr (Int.fract_lt_one _)
    _ = b := mul_one b

lemma pymod_zero_left (b : ℝ) : pymod 0 b = 0 := by
  simp [pymod]

lemma pymod_self_ne_zero (a b : ℝ) (hb : b ≠ 0) (h : pymod a b ≠ 0) :
    pymod (-a) b = b - pymod a b := by
  rw [pymod_eq_fract_mul a b hb, pymod_eq_fract_mul (-a) b hb] at *
  rw [neg_div, Int.fract_neg]
  · ring
  · intro hfr
    exact h (by rw [hfr, mul_zero])

lemma pymod_neg_of_zero (a b : ℝ) (hb : b ≠ 0) (h : pymod a b = 0) :
    pymod (-a) b = 0 := by
  rw [pymod_eq_fract_mul a b hb] at h
  rw [pymod_eq_fract_mul (-a) b hb, neg_div, Int.fract_neg_eq_zero.mpr, mul_zero]
  rcases mul_eq_zero.mp h with h' | h'
  · exact absurd h' hb
  · exact h'

lemma angle_diff_rad_def (a1 a2 : ℝ) :
    angle_diff_rad a1 a2 =
      if pymod (a2 - a1) (2 * Real.pi) ≥ Real.pi then
        pymod (a2 - a1) (2 * Real.pi) - 2 * Real.pi
      else pymod (a2 - a1) (2 * Real.pi) := rfl

lemma floor_half : ⌊(1 / 2 : ℝ)⌋ = 0 := by
  rw [Int.floor_eq_zero_iff]
  constructor <;> norm_num

lemma floor_neg_half : ⌊(-(1 / 2) : ℝ)⌋ = -1 := by
  rw [Int.floor_eq_iff]
  constructor <;> norm_num

lemma pymod_pi : pymod Real.pi (2 * Real.pi) = Real.pi := by
  have h : Real.pi / (2 * Real.pi) = 1 / 2 := by
    rw [div_eq_iff (by positivity)]
    ring
  unfold pymod
  rw [h, floor_half]
  norm_num

lemma pymod_neg_pi : pymod (-Real.pi) (2 * Real.pi) = Real.pi := by
  have h : -Real.pi / (2 * Real.pi) = -(1 / 2) := by
    rw [div_eq_iff (by positivity)]
    ring
  unfold pymod
  rw [h, floor_neg_half]
  push_cast
  ring

lemma angle_diff_rad_zero_pi : angle_diff_rad 0 Real.pi = -Real.pi := by
  rw [angle_diff_rad_def, sub_zero, pymod_pi, if_pos le_rfl]
  ring

lemma angle_diff_rad_pi_zero : angle_diff_rad Real.pi 0 = -Real.pi := by
  rw [angle_diff_rad_def, zero_sub, pymod_neg_pi, if_pos le_rfl]
  ring

/-- C8 (corrected): for all real angles `a1`, `a2`, `angle_diff_rad a1 a2`
lies in the half-open interval `[-π, π)`.  The interval claimed by the spec,
`(-π, π]`, is wrong at the boundary: the wrap step `if r >= pi: r -= 2*pi`
maps the representative `π` to `-π`, so `-π` is attained and `π` never is. -/
theorem angle_diff_rad_mem_Ico (a1 a2 : ℝ) :
    angle_diff_rad a1 a2 ∈ Set.Ico (-Real.pi) Real.pi := by
  have hb : (0 : ℝ) < 2 * Real.pi := by positivity
  have h0 := pymod_nonneg (a2 - a1) _ hb
  have h2 := pymod_lt (a2 - a1) _ hb
  rw [angle_diff_rad_def]
  by_cases h : pymod (a2 - a1) (2 * Real.pi) ≥ Real.pi
  · rw [if_pos h]
    exact ⟨by linarith, by linarith [Real.pi_pos]⟩
  · rw [if_neg h]
    exact ⟨by linarith [Real.pi_pos], by linarith [not_le.mp h]⟩

/-- C8 (counterexample): `angle_diff_rad 0 π = -π`, which is outside the
claimed interval `(-π, π]`. -/
theorem angle_diff_rad_not_mem_Ioc :
    angle_diff_rad 0 Real.pi = -Real.pi ∧
      angle_diff_rad 0 Real.pi ∉ Set.Ioc (-Real.pi) Real.pi := by
  refine ⟨angle_diff_rad_zero_pi, ?_⟩
  rw [angle_diff_rad_zero_pi]
  exact fun hmem => lt_irrefl _ hmem.1

/-- C9 (corrected): `angle_diff_rad a a = 0` for every angle `a`, and
`angle_diff_rad a1 a2 = -angle_diff_rad a2 a1` whenever the wrapped
difference `(a2 - a1) % 2π` is not exactly `π`; at that boundary both
orders return `-π`, so antisymmetry fails there. -/
theorem angle_diff_rad_diag_antisym :
    (∀ a : ℝ, angle_diff_rad a a = 0) ∧
      ∀ a1 a2 : ℝ, pymod (a2 - a1) (2 * Real.pi) ≠ Real.pi →
        angle_diff_rad a1 a2 = -angle_diff_rad a2 a1 := by
  have hb : (0 : ℝ) < 2 * Real.pi := by positivity
  constructor
  · intro a
    rw [angle_diff_rad_def, sub_self, pymod_zero_left,
      if_neg (not_le.mpr Real.pi_pos)]
  · intro a1 a2 hne
    have hd : a1 - a2 = -(a2 - a1) := by ring
    rw [angle_diff_rad_def, angle_diff_rad_def, hd]
    by_cases hz : pymod (a2 - a1) (2 * Real.pi) = 0
    · rw [pymod_neg_of_zero _ _ hb.ne' hz, hz,
        if_neg (not_le.mpr Real.pi_pos)]
      ring
    · rw [pymod_self_ne_zero _ _ hb.ne' hz]
      have h0 := pymod_nonneg (a2 - a1) _ hb
      have h2 := pymod_lt (a2 - a1) _ hb
      rcases lt_or_gt_of_ne hne with hlt | hgt
      · rw [if_neg (not_le.mpr hlt), if_pos (by linarith)]
        ring
      · rw [if_pos (le_of_lt hgt), if_neg (by push_neg; linarith)]
        ring

/-- C9 (witness): the corrected statement applied at `a = 0` and at the
pair `(0, 0)`, whose wrapped difference `0` differs from `π`. -/
theorem angle_diff_rad_diag_antisym_witness :
    angle_diff_rad 0 0 = 0 ∧ angle_diff_rad 0 0 = -angle_diff_rad 0 0 :=
  ⟨angle_diff_rad_diag_antisym.1 0,
   angle_diff_rad_diag_antisym.2 0 0 (by
     rw [sub_zero, pymod_zero_left]
     exact fun h => Real.pi_ne_zero h.symm)⟩

/-- C9 (counterexample): at `a1 = 0`, `a2 = π` both `angle_diff_rad 0 π` and
`angle_diff_rad π 0` equal `-π`, so the claimed antisymmetry
`angle_diff_rad a1 a2 = -angle_diff_rad a2 a1` fails there. -/
theorem angle_diff_rad_antisym_counterexample :
    angle_diff_rad 0 Real.pi = -Real.pi ∧
      angle_diff_rad Real.pi 0 = -Real.pi ∧
      angle_diff_rad 0 Real.pi ≠ -angle_diff_rad Real.pi 0 := by
  refine ⟨angle_diff_rad_zero_pi, angle_diff_rad_pi_zero, ?_⟩
  rw [angle_diff_rad_zero_pi, angle_diff_rad_pi_zero, neg_neg]
  intro h
  exact Real.pi_ne_zero (by linarith)

section GaussCore

variable {K : Type} [LinearOrderedField K]

/-- Embedding of `lagrangef(mu, r2, tau)` (source lines 247-258): first-order
approximation to Lagrange's f function. -/
def lagrangef (mu r2 tau : K) : K := 1 - 1 / 2 * (mu / r2 ^ 3) * tau ^ 2

/-- Embedding of `lagrangeg(mu, r2, tau)` (source lines 260-271): first-order
approximation to Lagrange's g function. -/
def lagrangeg (mu r2 tau : K) : K := tau - 1 / 6 * (mu / r2 ^ 3) * tau ^ 3

/-- The scalar `A` computed by `gauss_method_core` (source line 932):
`A = (-D[0,1]*(tau3/tau) + D[1,1] + D[2,1]*(tau1/tau)) / D0`. -/
def gaussA (rho1 rho2 rho3 R1 R2 R3 : Vec3 K) (t1 t2 t3 : K) : K :=
  let tau1 := t1 - t2
  let tau3 := t3 - t2
  let tau := tau3 - tau1
  let p1 := crossv rho1 rho3
  let D0 := dotv rho1 (crossv rho2 rho3)
  (-dotv R1 p1 * (tau3 / tau) + dotv R2 p1 + dotv R3 p1 * (tau1 / tau)) / D0

/-- The scalar `B` computed by `gauss_method_core` (source line 933):
`B = (D[0,1]*(tau3²-tau²)*(tau3/tau) + D[2,1]*(tau²-tau1²)*(tau1/tau))/(6*D0)`. -/
def gaussB (rho1 rho2 rho3 R1 R2 R3 : Vec3 K) (t1 t2 t3 : K) : K :=
  let tau1 := t1 - t2
  let tau3 := t3 - t2
  let tau := tau3 - tau1
  let p1 := crossv rho1 rho3
  let D0 := dotv rho1 (crossv rho2 rho3)
  (dotv R1 p1 * (tau3 ^ 2 - tau ^ 2) * (tau3 / tau)
      + dotv R3 p1 * (tau ^ 2 - tau1 ^ 2) * (tau1 / tau)) / (6 * D0)

/-- A length-9 numpy array which is zero except at positions 0 (value 1),
2, 5 and 8: the result of `np.zeros((9,))` followed by the four writes of
`gauss_method_core` (source lines 943-947). -/
def coeffs9 (a b c : K) : Fin 9 → K := fun i =>
  if i = 0 then 1 else if i = 2 then a
    else if i = 5 then b else if i = 8 then c else 0

/-- The numpy coefficient array `gauss_poly_coeffs` built by
`gauss_method_core` (source lines 935-947).  Position `i` holds the
coefficient of degree `8 - i`, the convention consumed by `numpy.roots`. -/
def gauss_poly_coeffs (rho1 rho2 rho3 R1 R2 R3 : Vec3 K)
    (t1 t2 t3 mu : K) : Fin 9 → K :=
  let A := gaussA rho1 rho2 rho3 R1 R2 R3 t1 t2 t3
  let B := gaussB rho1 rho2 rho3 R1 R2 R3 t1 t2 t3
  let E := dotv R2 rho2
  let Rsub2p2 := dotv R2 R2
  let a := -(A ^ 2 + 2 * A * E + Rsub2p2)
  let b := -2 * mu * B * (A + E)
  let c := -mu ^ 2 * B ^ 2
  coeffs9 a b c

/-- The polynomial a numpy coefficient array of length 9 denotes, following
`numpy.roots`: `p[0]*x^8 + p[1]*x^7 + ... + p[8]`. -/
def gaussPolyEval (coeffs : Fin 9 → K) (x : K) : K :=
  ∑ i : Fin 9, coeffs i * x ^ (8 - (i : ℕ))

/-- The index set `rt_indx` of `gauss_method_core` (source line 950):
`np.where(np.isreal(roots) & (roots >= 0.0))`, the positions of the roots
whose imaginary part is exactly zero (`np.isreal`) and whose value is
non-negative.  Roots are complex numbers modeled as (re, im) pairs. -/
def rt_indx (roots : List (K × K)) : List ℕ :=
  (List.range roots.length).filter fun j =>
    decide ((roots.getD j (0, 0)).2 = 0 ∧ 0 ≤ (roots.getD j (0, 0)).1)

/-- The root selection `np.real(gauss_poly_roots[rt_indx[0][r2_root_ind]])`
(source line 959).  Out-of-range indexing raises `IndexError` in Python,
modeled as `none`. -/
def r2_star_sel (roots : List (K × K)) (ind : ℕ) : Option K :=
  ((rt_indx roots).get? ind).bind fun j => (roots.get? j).map Prod.fst

/-- The warning print of `gauss_method_core` (source lines 951-957): when
more than one real non-negative root exists, a warning naming the candidate
count `len(rt_indx[0])` is emitted; otherwise nothing is printed. -/
def gauss_root_warning (roots : List (K × K)) : Option ℕ :=
  if 1 < (rt_indx roots).length then some (rt_indx roots).length else none

/-- The tuple returned by `gauss_method_core` (source line 986). -/
structure GaussCoreOut (K : Type) where
  r1 : Vec3 K
  r2 : Vec3 K
  r3 : Vec3 K
  v2 : Vec3 K
  D : Fin 3 → Fin 3 → K
  rho1 : Vec3 K
  rho2 : Vec3 K
  rho3 : Vec3 K
  tau1 : K
  tau3 : K
  f1 : K
  g1 : K
  f3 : K
  g3 : K
  rho_1 : K
  rho_2 : K
  rho_3 : K

/-- Embedding of `gauss_method_core` (source lines 873-986).  The source
receives ra/dec observations and derives the line-of-sight vectors
`rho1, rho2, rho3` via `losvector`; here the LOS triple is the input, as in
the spec's `gaussCore` contract.  `roots` is the output of the external root
finder `numpy.roots` on `gauss_poly_coeffs`, passed as a parameter.  The
only failure path of the Python code is the indexing
`gauss_poly_roots[rt_indx[0][r2_root_ind]]` (IndexError), modeled by
`Option`; every division is performed unconditionally. -/
def gauss_method_core (rho1 rho2 rho3 R1 R2 R3 : Vec3 K) (t1 t2 t3 mu : K)
    (roots : List (K × K)) (r2_root_ind : ℕ) : Option (GaussCoreOut K) :=
  let tau1 := t1 - t2
  let tau3 := t3 - t2
  let tau := tau3 - tau1
  let p0 := crossv rho2 rho3
  let p1 := crossv rho1 rho3
  let p2 := crossv rho1 rho2
  let D0 := dotv rho1 p0
  let D : Fin 3 → Fin 3 → K := fun i j =>
    dotv (if i = 0 then R1 else if i = 1 then R2 else R3)
      (if j = 0 then p0 else if j = 1 then p1 else p2)
  match r2_star_sel roots r2_root_ind with
  | none => none
  | some r2_star =>
    let num1 := 6 * (D 2 0 * (tau1 / tau3) + D 1 0 * (tau / tau3)) * r2_star ^ 3
        + mu * D 2 0 * (tau ^ 2 - tau1 ^ 2) * (tau1 / tau3)
    let den1 := 6 * r2_star ^ 3 + mu * (tau ^ 2 - tau3 ^ 2)
    let rho_1_ := (num1 / den1 - D 0 0) / D0
    let rho_2_ := gaussA rho1 rho2 rho3 R1 R2 R3 t1 t2 t3
        + mu * gaussB rho1 rho2 rho3 R1 R2 R3 t1 t2 t3 / r2_star ^ 3
    let num3 := 6 * (D 0 2 * (tau3 / tau1) - D 1 2 * (tau / tau1)) * r2_star ^ 3
        + mu * D 0 2 * (tau ^ 2 - tau3 ^ 2) * (tau3 / tau1)
    let den3 := 6 * r2_star ^ 3 + mu * (tau ^ 2 - tau1 ^ 2)
    let rho_3_ := (num3 / den3 - D 2 2) / D0
    let r1 := addv R1 (smulv rho_1_ rho1)
    let r2 := addv R2 (smulv rho_2_ rho2)
    let r3 := addv R3 (smulv rho_3_ rho3)
    let f1 := lagrangef mu r2_star tau1
    let f3 := lagrangef mu r2_star tau3
    let g1 := lagrangeg mu r2_star tau1
    let g3 := lagrangeg mu r2_star tau3
    let v2 := divv (addv (smulv (-f3) r1) (smulv f1 r3)) (f1 * g3 - f3 * g1)
    some ⟨r1, r2, r3, v2, D, rho1, rho2, rho3, tau1, tau3,
      f1, g1, f3, g3, rho_1_, rho_2_, rho_3_⟩

end GaussCore

lemma sum_univ_nine {M : Type} [AddCommMonoid M] (f : Fin 9 → M) :
    ∑ i, f i = f 0 + f 1 + f 2 + f 3 + f 4 + f 5 + f 6 + f 7 + f 8 := by
  rw [Fin.sum_univ_castSucc, Fin.sum_univ_eight]
  rfl

lemma gaussPolyEval_expand {K : Type} [LinearOrderedField K]
    (coeffs : Fin 9 → K) (x : K) :
    gaussPolyEval coeffs x =
      coeffs 0 * x ^ 8 + coeffs 1 * x ^ 7 + coeffs 2 * x ^ 6 + coeffs 3 * x ^ 5
        + coeffs 4 * x ^ 4 + coeffs 5 * x ^ 3 + coeffs 6 * x ^ 2
        + coeffs 7 * x ^ 1 + coeffs 8 * x ^ 0 := by
  rw [gaussPolyEval, sum_univ_nine]
  rfl

lemma gaussPolyEval_coeffs9 {K : Type} [LinearOrderedField K] (a b c x : K) :
    gaussPolyEval (coeffs9 a b c) x = x ^ 8 + a * x ^ 6 + b * x ^ 3 + c := by
  rw [gaussPolyEval_expand]
  show 1 * x ^ 8 + 0 * x ^ 7 + a * x ^ 6 + 0 * x ^ 5 + 0 * x ^ 4 + b * x ^ 3
      + 0 * x ^ 2 + 0 * x ^ 1 + c * x ^ 0 = _
  ring

/-- C1 (confirmed): `gauss_method_core` builds the Gauss polynomial in the
middle slant range with nonzero coefficients only at degrees 8, 6, 3 and 0:
the numpy array position `i` holds the degree-`8-i` coefficient, position 0
holds 1, position 2 holds `a = -(A² + 2AE + R2sq)`, position 5 holds
`b = -2·mu·B·(A+E)`, position 8 holds `c = -mu²·B²`, where `E = R2·los2` and
`R2sq = R2·R2`, for every LOS/observer/time input with `tau` and `D0`
nonzero. -/
theorem gauss_poly_coeffs_structure {K : Type} [LinearOrderedField K]
    (rho1 rho2 rho3 R1 R2 R3 : Vec3 K) (t1 t2 t3 mu : K)
    (htau : (t3 - t2) - (t1 - t2) ≠ 0)
    (hD0 : dotv rho1 (crossv rho2 rho3) ≠ 0) :
    (∀ x : K,
      gaussPolyEval (gauss_poly_coeffs rho1 rho2 rho3 R1 R2 R3 t1 t2 t3 mu) x =
        x ^ 8
          + -(gaussA rho1 rho2 rho3 R1 R2 R3 t1 t2 t3 ^ 2
              + 2 * gaussA rho1 rho2 rho3 R1 R2 R3 t1 t2 t3 * dotv R2 rho2
              + dotv R2 R2) * x ^ 6
          + -2 * mu * gaussB rho1 rho2 rho3 R1 R2 R3 t1 t2 t3
              * (gaussA rho1 rho2 rho3 R1 R2 R3 t1 t2 t3 + dotv R2 rho2) * x ^ 3
          + -mu ^ 2 * gaussB rho1 rho2 rho3 R1 R2 R3 t1 t2 t3 ^ 2) ∧
    gauss_poly_coeffs rho1 rho2 rho3 R1 R2 R3 t1 t2 t3 mu 0 = 1 ∧
    gauss_poly_coeffs rho1 rho2 rho3 R1 R2 R3 t1 t2 t3 mu 2 =
      -(gaussA rho1 rho2 rho3 R1 R2 R3 t1 t2 t3 ^ 2
        + 2 * gaussA rho1 rho2 rho3 R1 R2 R3 t1 t2 t3 * dotv R2 rho2
        + dotv R2 R2) ∧
    gauss_poly_coeffs rho1 rho2 rho3 R1 R2 R3 t1 t2 t3 mu 5 =
      -2 * mu * gaussB rho1 rho2 rho3 R1 R2 R3 t1 t2 t3
        * (gaussA rho1 rho2 rho3 R1 R2 R3 t1 t2 t3 + dotv R2 rho2) ∧
    gauss_poly_coeffs rho1 rho2 rho3 R1 R2 R3 t1 t2 t3 mu 8 =
      -mu ^ 2 * gaussB rho1 rho2 rho3 R1 R2 R3 t1 t2 t3 ^ 2 ∧
    ∀ i : Fin 9, i ≠ 0 → i ≠ 2 → i ≠ 5 → i ≠ 8 →
      gauss_poly_coeffs rho1 rho2 rho3 R1 R2 R3 t1 t2 t3 mu i = 0 := by
  refine ⟨?_, rfl, rfl, rfl, rfl, ?_⟩
  · intro x
    rw [show gauss_poly_coeffs rho1 rho2 rho3 R1 R2 R3 t1 t2 t3 mu =
      coeffs9
        (-(gaussA rho1 rho2 rho3 R1 R2 R3 t1 t2 t3 ^ 2
          + 2 * gaussA rho1 rho2 rho3 R1 R2 R3 t1 t2 t3 * dotv R2 rho2
          + dotv R2 R2))
        (-2 * mu * gaussB rho1 rho2 rho3 R1 R2 R3 t1 t2 t3
          * (gaussA rho1 rho2 rho3 R1 R2 R3 t1 t2 t3 + dotv R2 rho2))
        (-mu ^ 2 * gaussB rho1 rho2 rho3 R1 R2 R3 t1 t2 t3 ^ 2) from rfl,
      gaussPolyEval_coeffs9]
  · intro i h0 h2 h5 h8
    fin_cases i
    · exact absurd rfl h0
    · rfl
    · exact absurd rfl h2
    · rfl
    · rfl
    · exact absurd rfl h5
    · rfl
    · rfl
    · exact absurd rfl h8

/-- C1 (witness): the coefficient-structure theorem at a concrete
non-degenerate rational input. -/
theorem gauss_poly_coeffs_structure_witness :
    (((2 : ℚ) - 1) - ((0 : ℚ) - 1) ≠ 0) ∧
      dotv (⟨1, 0, 0⟩ : Vec3 ℚ) (crossv ⟨0, 1, 0⟩ ⟨0, 0, 1⟩) ≠ 0 ∧
      gauss_poly_coeffs (⟨1, 0, 0⟩ : Vec3 ℚ) ⟨0, 1, 0⟩ ⟨0, 0, 1⟩
        ⟨1, 2, 3⟩ ⟨4, 5, 6⟩ ⟨7, 8, 9⟩ 0 1 2 1 0 = 1 :=
  ⟨by norm_num, by norm_num [dotv, crossv],
   (gauss_poly_coeffs_structure (⟨1, 0, 0⟩ : Vec3 ℚ) ⟨0, 1, 0⟩ ⟨0, 0, 1⟩
     ⟨1, 2, 3⟩ ⟨4, 5, 6⟩ ⟨7, 8, 9⟩ 0 1 2 1 (by norm_num)
     (by norm_num [dotv, crossv])).2.1⟩

section RootSelection

variable {K : Type} [LinearOrderedField K]

lemma rt_indx_cons (z : K × K) (tl : List (K × K)) :
    rt_indx (z :: tl) =
      (if z.2 = 0 ∧ 0 ≤ z.1 then [0] else []) ++ (rt_indx tl).map Nat.succ := by
  unfold rt_indx
  rw [List.length_cons, List.range_succ_eq_map, List.filter_cons,
    List.filter_map]
  have hfil :
      List.filter
        ((fun j => decide (((z :: tl).getD j (0, 0)).2 = 0 ∧
          0 ≤ ((z :: tl).getD j (0, 0)).1)) ∘ Nat.succ)
        (List.range tl.length) =
      List.filter
        (fun j => decide ((tl.getD j (0, 0)).2 = 0 ∧ 0 ≤ (tl.getD j (0, 0)).1))
        (List.range tl.length) :=
    List.filter_congr fun j _ => by
      rw [Function.comp_apply, List.getD_cons_succ]
  rw [hfil]
  by_cases h : z.2 = 0 ∧ 0 ≤ z.1
  · rw [if_pos (by simpa using h), if_pos h]
    rfl
  · rw [if_neg (by simpa using h), if_neg h]
    rfl

lemma rt_indx_map_getD (roots : List (K × K)) :
    ((rt_indx roots).map fun j => roots.getD j (0, 0)) =
      roots.filter fun z => decide (z.2 = 0 ∧ 0 ≤ z.1) := by
  induction roots with
  | nil => rfl
  | cons z tl ih =>
    rw [rt_indx_cons, List.map_append, List.map_map, List.filter_cons]
    have hcomp :
        ((fun j => (z :: tl).getD j (0, 0)) ∘ Nat.succ) = fun j =>
          tl.getD j (0, 0) := by
      funext j
      simp [List.getD_cons_succ]
    rw [hcomp, ih]
    by_cases h : z.2 = 0 ∧ 0 ≤ z.1
    · rw [if_pos h, if_pos (by simpa using h)]
      rfl
    · rw [if_neg h, if_neg (by simpa using h)]
      rfl

lemma rt_indx_mem_lt (roots : List (K × K)) (j : ℕ) (hj : j ∈ rt_indx roots) :
    j < roots.length := by
  unfold rt_indx at hj
  exact List.mem_range.mp (List.mem_of_mem_filter hj)

lemma r2_star_sel_zero (roots : List (K × K)) :
    r2_star_sel roots 0 =
      ((roots.filter fun z => decide (z.2 = 0 ∧ 0 ≤ z.1)).head?).map
        Prod.fst := by
  have h := rt_indx_map_getD roots
  cases hr : rt_indx roots with
  | nil =>
    rw [hr] at h
    rw [r2_star_sel, hr, ← h]
    rfl
  | cons j js =>
    rw [hr] at h
    have hj : j < roots.length :=
      rt_indx_mem_lt roots j (by rw [hr]; exact List.mem_cons_self _ _)
    rw [r2_star_sel, hr, ← h]
    simp only [List.get?_cons_zero, Option.bind_eq_bind, Option.some_bind,
      List.map_cons, List.head?_cons]
    rw [List.getD_eq_get? , List.get?_eq_get hj]
    rfl

end RootSelection

/-- C3 (corrected): the candidate slant-range roots retained by
`gauss_method_core` are exactly those whose imaginary part is exactly zero
(`np.isreal`, not a tolerance check) and whose value is non-negative; when
more than one candidate exists the emitted warning carries the candidate
count; with the default root index `r2_root_ind = 0` the first candidate is
the one selected. -/
theorem gauss_root_retention {K : Type} [LinearOrderedField K]
    (roots : List (K × K)) :
    (((rt_indx roots).map fun j => roots.getD j (0, 0)) =
        roots.filter fun z => decide (z.2 = 0 ∧ 0 ≤ z.1)) ∧
      (1 < (rt_indx roots).length →
        gauss_root_warning roots = some (rt_indx roots).length) ∧
      r2_star_sel roots 0 =
        ((roots.filter fun z => decide (z.2 = 0 ∧ 0 ≤ z.1)).head?).map
          Prod.fst :=
  ⟨rt_indx_map_getD roots,
   fun h => by rw [gauss_root_warning, if_pos h],
   r2_star_sel_zero roots⟩

/-- C3 (witness): with two real non-negative roots the index list has length
2 > 1 and the warning reports that count. -/
theorem gauss_root_retention_witness :
    1 < (rt_indx [((1 : ℚ), 0), ((2 : ℚ), 0)]).length ∧
      gauss_root_warning [((1 : ℚ), 0), ((2 : ℚ), 0)] =
        some (rt_indx [((1 : ℚ), 0), ((2 : ℚ), 0)]).length := by
  have h1 : rt_indx [((1 : ℚ), 0), ((2 : ℚ), 0)] = [0, 1] := by
    simp [rt_indx, List.range_succ]
  exact ⟨by rw [h1]; norm_num,
    (gauss_root_retention [((1 : ℚ), 0), ((2 : ℚ), 0)]).2.1
      (by rw [h1]; norm_num)⟩

/-- C3 (counterexample): a root whose imaginary part is tiny but nonzero
(well within any numerical tolerance such as `1e-6`) and whose real part is
non-negative is nevertheless discarded: the retained index list is empty,
refuting the claim that roots real *within a numerical tolerance on the
imaginary part* are retained. -/
theorem gauss_root_tolerance_counterexample :
    rt_indx [((1 : ℚ), 1 / 10 ^ 9)] = [] ∧
      |(1 / 10 ^ 9 : ℚ)| ≤ 1 / 10 ^ 6 ∧ (0 : ℚ) ≤ 1 := by
  refine ⟨?_, by rw [abs_le]; constructor <;> norm_num, by norm_num⟩
  rw [rt_indx_cons, if_neg (by norm_num)]
  rfl

lemma r2_star_sel_single : r2_star_sel [((1 : ℚ), 0)] 0 = some 1 := by
  rw [r2_star_sel, rt_indx_cons, if_pos (by norm_num)]
  rfl

/-- C2 (code evaluation at the failing input): at a degenerate input with
`tau = tau3 - tau1 = 0` (observations 1 and 3 at the same epoch), the Gauss
core performs all its divisions unconditionally and returns a value: no
error carrying the observation triplet's indices (or any error at all) is
produced.  The same code path is taken when `D0 = 0` or when the Lagrange
denominator `f1*g3 - f3*g1` vanishes: the quotient is simply computed. -/
theorem gauss_method_core_silent_on_degenerate :
    (((1 : ℚ) - 0) - ((1 : ℚ) - 0) = 0) ∧
      (gauss_method_core (⟨1, 0, 0⟩ : Vec3 ℚ) ⟨0, 1, 0⟩ ⟨0, 0, 1⟩
        ⟨1, 2, 3⟩ ⟨4, 5, 6⟩ ⟨7, 8, 9⟩ 1 0 1 1 [(1, 0)] 0).isSome = true := by
  refine ⟨by norm_num, ?_⟩
  rw [gauss_method_core, r2_star_sel_single]
  rfl

section UnivKepler

variable {K : Type} [LinearOrderedField K]

/-- One execution of the Newton loop body of `univkepler` (source lines
524-534): from the current iterate `xi` compute the ratio `f_i/g_i` and the
next iterate `xi - ratio`.  The Stumpff coefficients `c2f`, `c3f` (imported
by the source from `poliastro.stumpff` as `c2`, `c3`) and the value
`sqrtmu = np.sqrt(mu)` are external numeric primitives passed in. -/
def nrStep (c2f c3f : K → K) (alpha0 r0 vr0 sqrtmu dt : K) (xi : K) :
    K × K :=
  let xi2 := xi ^ 2
  let z_i := alpha0 * xi2
  let a_i := (r0 * vr0) / sqrtmu
  let b_i := 1 - alpha0 * r0
  let C_z_i := c2f z_i
  let S_z_i := c3f z_i
  let f_i := a_i * xi2 * C_z_i + b_i * xi ^ 3 * S_z_i + r0 * xi - sqrtmu * dt
  let g_i := a_i * xi * (1 - z_i * S_z_i) + b_i * xi2 * C_z_i + r0
  let ratio_i := f_i / g_i
  (xi - ratio_i, ratio_i)

/-- The while loop of `univkepler` (source line 523):
`while np.abs(ratio_i) > atol and i < iters`; `fuel = iters - i` counts the
remaining allowed iterations. -/
def nrLoop (c2f c3f : K → K) (alpha0 r0 vr0 sqrtmu dt atol : K) :
    ℕ → K → K → K
  | 0, xi, _ => xi
  | fuel + 1, xi, ratio =>
    if |ratio| > atol then
      let s := nrStep c2f c3f alpha0 r0 vr0 sqrtmu dt xi
      nrLoop c2f c3f alpha0 r0 vr0 sqrtmu dt atol fuel s.1 s.2
    else xi

/-- The number of loop-body executions performed by `nrLoop`. -/
def nrCount (c2f c3f : K → K) (alpha0 r0 vr0 sqrtmu dt atol : K) :
    ℕ → K → K → ℕ
  | 0, _, _ => 0
  | fuel + 1, xi, ratio =>
    if |ratio| > atol then
      let s := nrStep c2f c3f alpha0 r0 vr0 sqrtmu dt xi
      nrCount c2f c3f alpha0 r0 vr0 sqrtmu dt atol fuel s.1 s.2 + 1
    else 0

/-- The `(xi, ratio)` state transformer of one Newton iteration. -/
def nrState (c2f c3f : K → K) (alpha0 r0 vr0 sqrtmu dt : K) :
    K × K → K × K :=
  fun s => nrStep c2f c3f alpha0 r0 vr0 sqrtmu dt s.1

/-- Embedding of `univkepler(dt, x, y, z, u, v, w, mu, iters, atol)` (source
lines 496-535).  `sqrtf` stands for `numpy.sqrt`. -/
def univkepler (c2f c3f sqrtf : K → K) (dt x y z u v w mu : K)
    (iters : ℕ) (atol : K) : K :=
  let r0 := sqrtf (x ^ 2 + y ^ 2 + z ^ 2)
  let v20 := u ^ 2 + v ^ 2 + w ^ 2
  let vr0 := (x * u + y * v + z * w) / r0
  let alpha0 := 2 / r0 - v20 / mu
  let xi := sqrtf mu * |alpha0| * dt
  nrLoop c2f c3f alpha0 r0 vr0 (sqrtf mu) dt atol iters xi 1

/-- Embedding of `lagrangef_(xi, z, r)` (source lines 537-548). -/
def lagrangef_ (c2f : K → K) (xi z r : K) : K := 1 - xi ^ 2 * c2f z / r

/-- Embedding of `lagrangeg_(tau, xi, z, mu)` (source lines 550-562). -/
def lagrangeg_ (c3f sqrtf : K → K) (tau xi z mu : K) : K :=
  tau - xi ^ 3 * c3f z / sqrtf mu

lemma nrStep_dt_zero_xi_zero (c2f c3f : K → K) (alpha0 r0 vr0 sqrtmu : K) :
    nrStep c2f c3f alpha0 r0 vr0 sqrtmu 0 0 = (0, 0) := by
  unfold nrStep
  norm_num

lemma nrLoop_dt_zero_xi_zero (c2f c3f : K → K)
    (alpha0 r0 vr0 sqrtmu atol : K) (fuel : ℕ) (ratio : K) :
    nrLoop c2f c3f alpha0 r0 vr0 sqrtmu 0 atol fuel 0 ratio = 0 := by
  induction fuel generalizing ratio with
  | zero => rfl
  | succ n ih =>
    rw [nrLoop]
    split
    · rw [nrStep_dt_zero_xi_zero]
      exact ih 0
    · rfl

end UnivKepler

/-- C6 (confirmed): for every state with `|r0_vec| ≠ 0` and `mu > 0` (and in
fact unconditionally in exact arithmetic), `univkepler` called with `dt = 0`
returns universal anomaly `xi = 0` — the seed is `sqrt(mu)*|alpha0|*0 = 0`
and the first Newton ratio is `0/r0 = 0`, so the loop exits with `xi = 0` —
and the Lagrange coefficients evaluate to `lagrangef_(0, 0, r0) = 1` and
`lagrangeg_(0, 0, 0, mu) = 0`, whatever values the external Stumpff
coefficients `c2`, `c3` and `numpy.sqrt` take. -/
theorem univkepler_dt_zero {K : Type} [LinearOrderedField K]
    (c2f c3f sqrtf : K → K) (x y z u v w mu : K) (iters : ℕ) (atol : K)
    (hr : sqrtf (x ^ 2 + y ^ 2 + z ^ 2) ≠ 0) (hmu : 0 < mu) :
    univkepler c2f c3f sqrtf 0 x y z u v w mu iters atol = 0 ∧
      lagrangef_ c2f 0 0 (sqrtf (x ^ 2 + y ^ 2 + z ^ 2)) = 1 ∧
      lagrangeg_ c3f sqrtf 0 0 0 mu = 0 := by
  refine ⟨?_, ?_, ?_⟩
  · simp only [univkepler, mul_zero]
    exact nrLoop_dt_zero_xi_zero _ _ _ _ _ _ _ _ _
  · unfold lagrangef_
    norm_num
  · unfold lagrangeg_
    norm_num

/-- C6 (witness): the statement at the state `r0_vec = (1,0,0)`,
`v0_vec = 0`, `mu = 1`, with the identity standing in for `numpy.sqrt` and
zero Stumpff functions, using the source defaults `iters = 5`,
`atol = 1e-15`. -/
theorem univkepler_dt_zero_witness :
    univkepler (fun _ => (0 : ℚ)) (fun _ => 0) id 0 1 0 0 0 0 0 1 5
        (1 / 10 ^ 15) = 0 ∧
      lagrangef_ (fun _ => (0 : ℚ)) 0 0 (id ((1 : ℚ) ^ 2 + 0 ^ 2 + 0 ^ 2)) = 1 ∧
      lagrangeg_ (fun _ => (0 : ℚ)) id 0 0 0 1 = 0 :=
  univkepler_dt_zero (fun _ => (0 : ℚ)) (fun _ => 0) id 1 0 0 0 0 0 1 5
    (1 / 10 ^ 15) (by norm_num) (by norm_num)

/-- C7 (confirmed): the Newton loop of `univkepler` executes its body at
most `fuel` (= `iters`) times; the returned value is exactly the
`nrCount`-fold iterate of the body applied to the initial state (so when the
cap is reached the last iterate is returned, a normal termination with no
exception); the body never runs from a state whose correction magnitude
`|f_i/g_i|` is at most `atol` (the loop stops as soon as the correction is
at most the tolerance); and an early stop (before the cap) happens only
because the correction fell to at most the tolerance.  The final conjunct
records that `univkepler` runs this loop with `fuel = iters` from the seed
`sqrt(mu)*|alpha0|*dt` and initial ratio 1. -/
theorem univkepler_newton_loop :
    ∀ {K : Type} [inst : LinearOrderedField K],
    ∀ (c2f c3f : K → K) (alpha0 r0 vr0 sqrtmu dt atol : K)
      (fuel : ℕ) (xi ratio : K),
    nrCount c2f c3f alpha0 r0 vr0 sqrtmu dt atol fuel xi ratio ≤ fuel ∧
      nrLoop c2f c3f alpha0 r0 vr0 sqrtmu dt atol fuel xi ratio =
        ((nrState c2f c3f alpha0 r0 vr0 sqrtmu dt)^[
          nrCount c2f c3f alpha0 r0 vr0 sqrtmu dt atol fuel xi ratio]
          (xi, ratio)).1 ∧
      (∀ k, k < nrCount c2f c3f alpha0 r0 vr0 sqrtmu dt atol fuel xi ratio →
        |((nrState c2f c3f alpha0 r0 vr0 sqrtmu dt)^[k] (xi, ratio)).2| >
          atol) ∧
      (nrCount c2f c3f alpha0 r0 vr0 sqrtmu dt atol fuel xi ratio < fuel →
        |((nrState c2f c3f alpha0 r0 vr0 sqrtmu dt)^[
          nrCount c2f c3f alpha0 r0 vr0 sqrtmu dt atol fuel xi ratio]
          (xi, ratio)).2| ≤ atol) ∧
      ∀ (sqrtf : K → K) (x y z u v w mu : K),
        univkepler c2f c3f sqrtf dt x y z u v w mu fuel atol =
          nrLoop c2f c3f
            (2 / sqrtf (x ^ 2 + y ^ 2 + z ^ 2)
              - (u ^ 2 + v ^ 2 + w ^ 2) / mu)
            (sqrtf (x ^ 2 + y ^ 2 + z ^ 2))
            ((x * u + y * v + z * w) / sqrtf (x ^ 2 + y ^ 2 + z ^ 2))
            (sqrtf mu) dt atol fuel
            (sqrtf mu *
              |2 / sqrtf (x ^ 2 + y ^ 2 + z ^ 2)
                - (u ^ 2 + v ^ 2 + w ^ 2) / mu| * dt) 1 := by
  intro K inst c2f c3f alpha0 r0 vr0 sqrtmu dt atol fuel
  induction fuel with
  | zero =>
    intro xi ratio
    exact ⟨Nat.le_refl 0, rfl, fun k hk => absurd hk (Nat.not_lt_zero k),
      fun h => absurd h (lt_irrefl 0), fun _ _ _ _ _ _ _ _ => rfl⟩
  | succ n ih =>
    intro xi ratio
    by_cases h : |ratio| > atol
    · have hstep :
          nrStep c2f c3f alpha0 r0 vr0 sqrtmu dt xi =
            nrState c2f c3f alpha0 r0 vr0 sqrtmu dt (xi, ratio) := rfl
      have hcount :
          nrCount c2f c3f alpha0 r0 vr0 sqrtmu dt atol (n + 1) xi ratio =
            nrCount c2f c3f alpha0 r0 vr0 sqrtmu dt atol n
              (nrStep c2f c3f alpha0 r0 vr0 sqrtmu dt xi).1
              (nrStep c2f c3f alpha0 r0 vr0 sqrtmu dt xi).2 + 1 := by
        rw [nrCount, if_pos h]
      have hloop :
          nrLoop c2f c3f alpha0 r0 vr0 sqrtmu dt atol (n + 1) xi ratio =
            nrLoop c2f c3f alpha0 r0 vr0 sqrtmu dt atol n
              (nrStep c2f c3f alpha0 r0 vr0 sqrtmu dt xi).1
              (nrStep c2f c3f alpha0 r0 vr0 sqrtmu dt xi).2 := by
        rw [nrLoop, if_pos h]
      obtain ⟨ih1, ih2, ih3, ih4, -⟩ :=
        ih (nrStep c2f c3f alpha0 r0 vr0 sqrtmu dt xi).1
          (nrStep c2f c3f alpha0 r0 vr0 sqrtmu dt xi).2
      have hiter : ∀ k : ℕ,
          (nrState c2f c3f alpha0 r0 vr0 sqrtmu dt)^[k + 1] (xi, ratio) =
            (nrState c2f c3f alpha0 r0 vr0 sqrtmu dt)^[k]
              ((nrStep c2f c3f alpha0 r0 vr0 sqrtmu dt xi).1,
               (nrStep c2f c3f alpha0 r0 vr0 sqrtmu dt xi).2) := by
        intro k
        rw [Function.iterate_succ_apply]
        rfl
      refine ⟨?_, ?_, ?_, ?_, fun _ _ _ _ _ _ _ _ => rfl⟩
      · rw [hcount]
        exact Nat.succ_le_succ ih1
      · rw [hcount, hloop, hiter, ih2]
      · intro k hk
        match k with
        | 0 => simpa using h
        | k + 1 =>
          rw [hiter]
          rw [hcount] at hk
          exact ih3 k (Nat.lt_of_succ_lt_succ hk)
      · intro hlt
        rw [hcount, hiter]
        rw [hcount] at hlt
        exact ih4 (Nat.lt_of_succ_lt_succ hlt)
    · have hcount :
          nrCount c2f c3f alpha0 r0 vr0 sqrtmu dt atol (n + 1) xi ratio = 0 := by
        rw [nrCount, if_neg h]
      have hloop :
          nrLoop c2f c3f alpha0 r0 vr0 sqrtmu dt atol (n + 1) xi ratio = xi := by
        rw [nrLoop, if_neg h]
      refine ⟨?_, ?_, ?_, ?_, fun _ _ _ _ _ _ _ _ => rfl⟩
      · rw [hcount]
        exact Nat.zero_le _
      · rw [hcount, hloop]
        rfl
      · intro k hk
        rw [hcount] at hk
        exact absurd hk (Nat.not_lt_zero k)
      · intro _
        rw [hcount]
        simpa using not_lt.mp h

/-- C7 (witness): the loop characterization at a concrete rational input
with `atol = -1` (never converges), `fuel = 1`: the count is 1 ≤ 1 and the
body ran from the initial state, whose ratio magnitude exceeds `atol`. -/
theorem univkepler_newton_loop_witness :
    nrCount (fun _ : ℚ => 0) (fun _ => 0) 0 1 0 1 0 (-1) 1 0 1 ≤ 1 ∧
      |((nrState (fun _ : ℚ => 0) (fun _ => 0) 0 1 0 1 0)^[0]
        ((0 : ℚ), 1)).2| > -1 := by
  have hc : nrCount (fun _ : ℚ => 0) (fun _ => 0) 0 1 0 1 0 (-1) 1 0 1 = 1 := by
    rw [nrCount, if_pos (by norm_num : |(1 : ℚ)| > -1)]
    rfl
  exact ⟨(univkepler_newton_loop (fun _ : ℚ => 0) (fun _ => 0)
      0 1 0 1 0 (-1) 1 0 1).1,
    (univkepler_newton_loop (fun _ : ℚ => 0) (fun _ => 0)
      0 1 0 1 0 (-1) 1 0 1).2.2.1 0 (by rw [hc]; norm_num)⟩

/-- The tuple returned by `gauss_refinement` (source line 1053). -/
structure RefineOut (K : Type) where
  r1 : Vec3 K
  r2 : Vec3 K
  r3 : Vec3 K
  v2 : Vec3 K
  rho_1 : K
  rho_2 : K
  rho_3 : K
  f1 : K
  g1 : K
  f3 : K
  g3 : K

/-- Embedding of `gauss_refinement(mu, tau1, tau3, r2, v2, atol, D, R, rho1,
rho2, rho3, f_1, g_1, f_3, g_3)` (source lines 988-1053).  The observer
array `R` is passed as `R1 R2 R3`; `c2f`, `c3f`, `sqrtf` are the external
Stumpff coefficients and `numpy.sqrt`. -/
def gauss_refinement {K : Type} [LinearOrderedField K]
    (c2f c3f sqrtf : K → K) (mu tau1 tau3 : K) (r2 v2 : Vec3 K) (atol : K)
    (D : Fin 3 → Fin 3 → K) (R1 R2 R3 rho1 rho2 rho3 : Vec3 K)
    (f_1 g_1 f_3 g_3 : K) : RefineOut K :=
  let xi1 := univkepler c2f c3f sqrtf tau1 r2.x r2.y r2.z v2.x v2.y v2.z mu
    10 atol
  let xi3 := univkepler c2f c3f sqrtf tau3 r2.x r2.y r2.z v2.x v2.y v2.z mu
    10 atol
  let r0_ := sqrtf (r2.x ^ 2 + r2.y ^ 2 + r2.z ^ 2)
  let v20_ := v2.x ^ 2 + v2.y ^ 2 + v2.z ^ 2
  let alpha0_ := 2 / r0_ - v20_ / mu
  let z1_ := alpha0_ * xi1 ^ 2
  let f1_ := (f_1 + lagrangef_ c2f xi1 z1_ r0_) / 2
  let g1_ := (g_1 + lagrangeg_ c3f sqrtf tau1 xi1 z1_ mu) / 2
  let z3_ := alpha0_ * xi3 ^ 2
  let f3_ := (f_3 + lagrangef_ c2f xi3 z3_ r0_) / 2
  let g3_ := (g_3 + lagrangeg_ c3f sqrtf tau3 xi3 z3_ mu) / 2
  let denum := f1_ * g3_ - f3_ * g1_
  let c1_ := g3_ / denum
  let c3_ := -g1_ / denum
  let D0 := dotv rho1 (crossv rho2 rho3)
  let rho_1_ := (-D 0 0 + D 1 0 / c1_ - D 2 0 * (c3_ / c1_)) / D0
  let rho_2_ := (-c1_ * D 0 1 + D 1 1 - c3_ * D 2 1) / D0
  let rho_3_ := (-D 0 2 * (c1_ / c3_) + D 1 2 / c3_ - D 2 2) / D0
  let r1 := addv R1 (smulv rho_1_ rho1)
  let r2_ := addv R2 (smulv rho_2_ rho2)
  let r3 := addv R3 (smulv rho_3_ rho3)
  let v2_ := divv (addv (smulv (-f3_) r1) (smulv f1_ r3)) denum
  ⟨r1, r2_, r3, v2_, rho_1_, rho_2_, rho_3_, f1_, g1_, f3_, g3_⟩

/-- C4 (confirmed): each `gauss_refinement` call computes universal
anomalies `xi1`, `xi3` at `tau1`, `tau3` from the current `(r2, v2)` (with
`iters = 10`); averages old and recomputed Lagrange coefficients,
`f1 = (f_1 + lagrangef_(xi1, z1, |r2|))/2`,
`g1 = (g_1 + lagrangeg_(tau1, xi1, z1, mu))/2` (likewise `f3`, `g3`), where
`z1 = alpha0*xi1²` and `|r2| = sqrt(r2·r2)`; recomputes the slant ranges
from the `D` matrix with `c1 = g3/(f1*g3 - f3*g1)`,
`c3 = -g1/(f1*g3 - f3*g1)`; and returns positions `r_i = R_i + rho_i*los_i`
and velocity `v2 = (-f3*r1 + f1*r3)/(f1*g3 - f3*g1)`. -/
theorem gauss_refinement_formulas {K : Type} [LinearOrderedField K]
    (c2f c3f sqrtf : K → K) (mu tau1 tau3 : K) (r2 v2 : Vec3 K) (atol : K)
    (D : Fin 3 → Fin 3 → K) (R1 R2 R3 rho1 rho2 rho3 : Vec3 K)
    (f_1 g_1 f_3 g_3 : K) :
    let out := gauss_refinement c2f c3f sqrtf mu tau1 tau3 r2 v2 atol D
      R1 R2 R3 rho1 rho2 rho3 f_1 g_1 f_3 g_3
    let xi1 := univkepler c2f c3f sqrtf tau1 r2.x r2.y r2.z v2.x v2.y v2.z
      mu 10 atol
    let xi3 := univkepler c2f c3f sqrtf tau3 r2.x r2.y r2.z v2.x v2.y v2.z
      mu 10 atol
    let r0_ := sqrtf (r2.x ^ 2 + r2.y ^ 2 + r2.z ^ 2)
    let alpha0_ := 2 / r0_ - (v2.x ^ 2 + v2.y ^ 2 + v2.z ^ 2) / mu
    let denum := out.f1 * out.g3 - out.f3 * out.g1
    let c1_ := out.g3 / denum
    let c3_ := -out.g1 / denum
    let D0 := dotv rho1 (crossv rho2 rho3)
    out.f1 = (f_1 + lagrangef_ c2f xi1 (alpha0_ * xi1 ^ 2) r0_) / 2 ∧
      out.g1 = (g_1 + lagrangeg_ c3f sqrtf tau1 xi1 (alpha0_ * xi1 ^ 2) mu) / 2 ∧
      out.f3 = (f_3 + lagrangef_ c2f xi3 (alpha0_ * xi3 ^ 2) r0_) / 2 ∧
      out.g3 = (g_3 + lagrangeg_ c3f sqrtf tau3 xi3 (alpha0_ * xi3 ^ 2) mu) / 2 ∧
      out.rho_1 = (-D 0 0 + D 1 0 / c1_ - D 2 0 * (c3_ / c1_)) / D0 ∧
      out.rho_2 = (-c1_ * D 0 1 + D 1 1 - c3_ * D 2 1) / D0 ∧
      out.rho_3 = (-D 0 2 * (c1_ / c3_) + D 1 2 / c3_ - D 2 2) / D0 ∧
      out.r1 = addv R1 (smulv out.rho_1 rho1) ∧
      out.r2 = addv R2 (smulv out.rho_2 rho2) ∧
      out.r3 = addv R3 (smulv out.rho_3 rho3) ∧
      out.v2 = divv (addv (smulv (-out.f3) out.r1) (smulv out.f1 out.r3))
        denum :=
  ⟨rfl, rfl, rfl, rfl, rfl, rfl, rfl, rfl, rfl, rfl, rfl⟩

section MultiTriplet

variable {K : Type} [LinearOrderedField K]

/-- The per-window quantities returned by `gauss_iterator_sat` /
`gauss_iterator_mpc` (Gauss core + `refiters` refinement rounds, source
lines 1123-1139) that the drivers consume: positions `r1, r2, r3`, velocity
`v2` and the three observation times of the window.  The iterator (which
performs file parsing, ephemeris lookups and the core+refinement chain) is
passed to the driver model as a function of the window index. -/
structure IterOut (K : Type) where
  r1 : Vec3 K
  r2 : Vec3 K
  r3 : Vec3 K
  v2 : Vec3 K
  obs_t : Fin 3 → K

/-- One per-window orbital element set, the values stored by the drivers in
`a_vec[j], e_vec[j], taup_vec[j], w_vec[j], I_vec[j], W_vec[j], n_vec[j]`
(source lines 1455-1468 and 1290-1301). -/
structure KepElems (K : Type) where
  a : K
  e : K
  taup : K
  w : K
  I : K
  W : K
  n : K

/-- The driver's mutable arrays: `x_vec/y_vec/z_vec` (grouped as one
`Vec3`-valued array), `t_vec`, and the seven element arrays (grouped as one
`KepElems`-valued array), all initialized by `np.zeros` (source lines
1413-1424). -/
structure ArcState (K : Type) where
  x_vec : ℕ → Vec3 K
  t_vec : ℕ → K
  elems_vec : ℕ → KepElems K

/-- The all-zeros initial driver state (`np.zeros`). -/
def arcInit : ArcState K :=
  ⟨fun _ => ⟨0, 0, 0⟩, fun _ => 0, fun _ => ⟨0, 0, 0, 0, 0, 0, 0⟩⟩

/-- One iteration `j` of the driver loop (source lines 1429-1472 for
`gauss_method_sat`, 1267-1309 for `gauss_method_mpc`): run the iterator on
the window of 3 consecutive observations starting at `j`; if `j = 0` store
`r1` (and `obs_t[0]`) at position 0; if `j = nobs-3` store `r3` (and
`obs_t[2]`) at position `nobs-1`; store the element set computed from
`(r2, v2, obs_t[1])` at position `j` and `r2` at position `j+1`.  `rotM` is
the frame rotation applied before storage: the identity for the sat driver,
`rot_equat_to_eclip` for the mpc driver.  `elems` stands for the element
extraction `semimajoraxis`/`eccentricity`/`trueanomaly`/`meanmotion`/
`taupericenter`/`argperi`/`inclination`/`longascnode` applied to the stored
state. -/
def arcStep (rotM : Vec3 K → Vec3 K) (estimate : ℕ → IterOut K)
    (elems : Vec3 K → Vec3 K → K → KepElems K) (nobs : ℕ)
    (st : ArcState K) (j : ℕ) : ArcState K :=
  let it := estimate j
  let x1 := if j = 0 then Function.update st.x_vec 0 (rotM it.r1)
    else st.x_vec
  let t1 := if j = 0 then Function.update st.t_vec 0 (it.obs_t 0)
    else st.t_vec
  let x2 := if j = nobs - 3 then Function.update x1 (nobs - 1) (rotM it.r3)
    else x1
  let t2 := if j = nobs - 3 then Function.update t1 (nobs - 1) (it.obs_t 2)
    else t1
  ⟨Function.update x2 (j + 1) (rotM it.r2),
   Function.update t2 (j + 1) (it.obs_t 1),
   Function.update st.elems_vec j
     (elems (rotM it.r2) (rotM it.v2) (it.obs_t 1))⟩

/-- The driver loop `for j in range(0, nobs-2)` run for `m` iterations. -/
def arcRun (rotM : Vec3 K → Vec3 K) (estimate : ℕ → IterOut K)
    (elems : Vec3 K → Vec3 K → K → KepElems K) (nobs m : ℕ) : ArcState K :=
  (List.range m).foldl (arcStep rotM estimate elems nobs) arcInit

/-- The unweighted arithmetic mean (`np.mean`) of the first `m` entries of
an element-set array (source lines 1495-1501 and 1331-1337). -/
def kepMean (ev : ℕ → KepElems K) (m : ℕ) : KepElems K :=
  ⟨(∑ j ∈ Finset.range m, (ev j).a) / (m : K),
   (∑ j ∈ Finset.range m, (ev j).e) / (m : K),
   (∑ j ∈ Finset.range m, (ev j).taup) / (m : K),
   (∑ j ∈ Finset.range m, (ev j).w) / (m : K),
   (∑ j ∈ Finset.range m, (ev j).I) / (m : K),
   (∑ j ∈ Finset.range m, (ev j).W) / (m : K),
   (∑ j ∈ Finset.range m, (ev j).n) / (m : K)⟩

/-- Model of `gauss_method_sat(...)` (source lines 1394-1551): the window
loop in the Earth-centered frame (no rotation), followed by the arithmetic
mean of the `nobs-2` element sets.  Returns the final array state and the
reported mean solution. -/
def gauss_method_sat (estimate : ℕ → IterOut K)
    (elems : Vec3 K → Vec3 K → K → KepElems K) (nobs : ℕ) :
    ArcState K × KepElems K :=
  let st := arcRun id estimate elems nobs (nobs - 2)
  (st, kepMean st.elems_vec (nobs - 2))

/-- Model of `gauss_method_mpc(...)` (source lines 1227-1392): the window
loop with the `rot_equat_to_eclip` frame rotation `rotM` applied to the
stored vectors, followed by the arithmetic mean of the `nobs-2` element
sets. -/
def gauss_method_mpc (rotM : Vec3 K → Vec3 K) (estimate : ℕ → IterOut K)
    (elems : Vec3 K → Vec3 K → K → KepElems K) (nobs : ℕ) :
    ArcState K × KepElems K :=
  let st := arcRun rotM estimate elems nobs (nobs - 2)
  (st, kepMean st.elems_vec (nobs - 2))

lemma arcRun_succ (rotM : Vec3 K → Vec3 K) (estimate : ℕ → IterOut K)
    (elems : Vec3 K → Vec3 K → K → KepElems K) (nobs m : ℕ) :
    arcRun rotM estimate elems nobs (m + 1) =
      arcStep rotM estimate elems nobs
        (arcRun rotM estimate elems nobs m) m := by
  unfold arcRun
  rw [List.range_succ, List.foldl_append, List.foldl_cons, List.foldl_nil]

lemma arcStep_elems_vec (rotM : Vec3 K → Vec3 K) (estimate : ℕ → IterOut K)
    (elems : Vec3 K → Vec3 K → K → KepElems K) (nobs : ℕ)
    (st : ArcState K) (j k : ℕ) :
    (arcStep rotM estimate elems nobs st j).elems_vec k =
      if k = j then
        elems (rotM (estimate j).r2) (rotM (estimate j).v2)
          ((estimate j).obs_t 1)
      else st.elems_vec k := by
  simp only [arcStep, Function.update_apply]

lemma arcRun_elems_vec (rotM : Vec3 K → Vec3 K) (estimate : ℕ → IterOut K)
    (elems : Vec3 K → Vec3 K → K → KepElems K) (nobs m : ℕ) :
    ∀ j < m, (arcRun rotM estimate elems nobs m).elems_vec j =
      elems (rotM (estimate j).r2) (rotM (estimate j).v2)
        ((estimate j).obs_t 1) := by
  induction m with
  | zero => exact fun j hj => absurd hj (Nat.not_lt_zero j)
  | succ n ih =>
    intro j hj
    rw [arcRun_succ, arcStep_elems_vec]
    by_cases h : j = n
    · rw [if_pos h, h]
    · rw [if_neg h]
      exact ih j (by omega)

lemma arcStep_x_vec_zero_of_ne (rotM : Vec3 K → Vec3 K)
    (estimate : ℕ → IterOut K) (elems : Vec3 K → Vec3 K → K → KepElems K)
    (nobs : ℕ) (h3 : 3 ≤ nobs) (st : ArcState K) (j : ℕ) (hj : j ≠ 0) :
    (arcStep rotM estimate elems nobs st j).x_vec 0 = st.x_vec 0 := by
  simp only [arcStep, Function.update_apply, ite_apply]
  split_ifs <;> first | rfl | omega | exact (False.elim (by assumption))

lemma arcStep_x_vec_zero_at_zero (rotM : Vec3 K → Vec3 K)
    (estimate : ℕ → IterOut K) (elems : Vec3 K → Vec3 K → K → KepElems K)
    (nobs : ℕ) (h3 : 3 ≤ nobs) (st : ArcState K) :
    (arcStep rotM estimate elems nobs st 0).x_vec 0 =
      rotM (estimate 0).r1 := by
  simp only [arcStep, Function.update_apply, ite_apply]
  split_ifs <;> first | rfl | omega | exact (False.elim (by assumption))

lemma arcRun_x_vec_zero (rotM : Vec3 K → Vec3 K) (estimate : ℕ → IterOut K)
    (elems : Vec3 K → Vec3 K → K → KepElems K) (nobs m : ℕ)
    (h3 : 3 ≤ nobs) (hm : 1 ≤ m) :
    (arcRun rotM estimate elems nobs m).x_vec 0 = rotM (estimate 0).r1 := by
  induction m with
  | zero => exact absurd hm (by norm_num)
  | succ n ih =>
    rw [arcRun_succ]
    by_cases hn : n = 0
    · subst hn
      exact arcStep_x_vec_zero_at_zero rotM estimate elems nobs h3 _
    · rw [arcStep_x_vec_zero_of_ne rotM estimate elems nobs h3 _ n hn]
      exact ih (by omega)

lemma arcRun_x_vec_last (rotM : Vec3 K → Vec3 K) (estimate : ℕ → IterOut K)
    (elems : Vec3 K → Vec3 K → K → KepElems K) (nobs : ℕ) (h3 : 3 ≤ nobs) :
    (arcRun rotM estimate elems nobs (nobs - 2)).x_vec (nobs - 1) =
      rotM (estimate (nobs - 3)).r3 := by
  have h : nobs - 2 = (nobs - 3) + 1 := by omega
  rw [h, arcRun_succ]
  simp only [arcStep, Function.update_apply, ite_apply]
  split_ifs <;> first | rfl | omega | exact (False.elim (by assumption))

lemma kepMean_congr (f g : ℕ → KepElems K) (m : ℕ)
    (h : ∀ j < m, f j = g j) : kepMean f m = kepMean g m := by
  have hc : ∀ j ∈ Finset.range m, f j = g j :=
    fun j hj => h j (Finset.mem_range.mp hj)
  unfold kepMean
  rw [Finset.sum_congr rfl fun j hj => by rw [hc j hj],
    Finset.sum_congr rfl (fun j hj => by rw [hc j hj] :
      ∀ j ∈ Finset.range m, (f j).e = (g j).e),
    Finset.sum_congr rfl (fun j hj => by rw [hc j hj] :
      ∀ j ∈ Finset.range m, (f j).taup = (g j).taup),
    Finset.sum_congr rfl (fun j hj => by rw [hc j hj] :
      ∀ j ∈ Finset.range m, (f j).w = (g j).w),
    Finset.sum_congr rfl (fun j hj => by rw [hc j hj] :
      ∀ j ∈ Finset.range m, (f j).I = (g j).I),
    Finset.sum_congr rfl (fun j hj => by rw [hc j hj] :
      ∀ j ∈ Finset.range m, (f j).W = (g j).W),
    Finset.sum_congr rfl (fun j hj => by rw [hc j hj] :
      ∀ j ∈ Finset.range m, (f j).n = (g j).n)]

end MultiTriplet

/-- C5 (confirmed): for an ordered arc of `nobs ≥ 3` observations, both
multi-triplet drivers run the Gauss core plus refinement (the `estimate`
iterator) once per each of the `nobs-2` windows of 3 consecutive
observations, storing the element set computed from that window's `(r2, v2)`
at position `j`; report as the solution the unweighted arithmetic mean
(`kepMean`) of the `nobs-2` per-window element sets; and retain `r1` of the
first window at position 0 and `r3` of the last window at position `nobs-1`
of the position array (the mpc driver stores these vectors rotated into the
ecliptic frame by `rotM = rot_equat_to_eclip`; the sat driver stores them
as-is). -/
theorem gauss_method_multi_triplet {K : Type} [LinearOrderedField K]
    (rotM : Vec3 K → Vec3 K) (estimate : ℕ → IterOut K)
    (elems : Vec3 K → Vec3 K → K → KepElems K) (nobs : ℕ) (h3 : 3 ≤ nobs) :
    (∀ j < nobs - 2, (gauss_method_sat estimate elems nobs).1.elems_vec j =
        elems (estimate j).r2 (estimate j).v2 ((estimate j).obs_t 1)) ∧
      (gauss_method_sat estimate elems nobs).2 =
        kepMean (fun j => elems (estimate j).r2 (estimate j).v2
          ((estimate j).obs_t 1)) (nobs - 2) ∧
      (gauss_method_sat estimate elems nobs).1.x_vec 0 = (estimate 0).r1 ∧
      (gauss_method_sat estimate elems nobs).1.x_vec (nobs - 1) =
        (estimate (nobs - 3)).r3 ∧
      (∀ j < nobs - 2,
        (gauss_method_mpc rotM estimate elems nobs).1.elems_vec j =
          elems (rotM (estimate j).r2) (rotM (estimate j).v2)
            ((estimate j).obs_t 1)) ∧
      (gauss_method_mpc rotM estimate elems nobs).2 =
        kepMean (fun j => elems (rotM (estimate j).r2) (rotM (estimate j).v2)
          ((estimate j).obs_t 1)) (nobs - 2) ∧
      (gauss_method_mpc rotM estimate elems nobs).1.x_vec 0 =
        rotM (estimate 0).r1 ∧
      (gauss_method_mpc rotM estimate elems nobs).1.x_vec (nobs - 1) =
        rotM (estimate (nobs - 3)).r3 := by
  refine ⟨?_, ?_, ?_, ?_, ?_, ?_, ?_, ?_⟩
  · intro j hj
    exact arcRun_elems_vec id estimate elems nobs (nobs - 2) j hj
  · exact kepMean_congr _ _ _
      (fun j hj => arcRun_elems_vec id estimate elems nobs (nobs - 2) j hj)
  · exact arcRun_x_vec_zero id estimate elems nobs (nobs - 2) h3 (by omega)
  · exact arcRun_x_vec_last id estimate elems nobs h3
  · intro j hj
    exact arcRun_elems_vec rotM estimate elems nobs (nobs - 2) j hj
  · exact kepMean_congr _ _ _
      (fun j hj => arcRun_elems_vec rotM estimate elems nobs (nobs - 2) j hj)
  · exact arcRun_x_vec_zero rotM estimate elems nobs (nobs - 2) h3 (by omega)
  · exact arcRun_x_vec_last rotM estimate elems nobs h3

/-- C5 (witness): the driver theorem applied at `nobs = 3` with a constant
iterator over `ℚ`: the endpoint at position 0 is `r1` of the (single)
window. -/
theorem gauss_method_multi_triplet_witness :
    (3 : ℕ) ≤ 3 ∧
      (gauss_method_sat
          (fun _ => (⟨⟨1, 2, 3⟩, ⟨4, 5, 6⟩, ⟨7, 8, 9⟩, ⟨0, 0, 1⟩,
            fun _ => 0⟩ : IterOut ℚ))
          (fun _ _ _ => ⟨1, 0, 0, 0, 0, 0, 1⟩) 3).1.x_vec 0 =
        ((fun _ => (⟨⟨1, 2, 3⟩, ⟨4, 5, 6⟩, ⟨7, 8, 9⟩, ⟨0, 0, 1⟩,
          fun _ => 0⟩ : IterOut ℚ)) 0).r1 :=
  ⟨by norm_num,
   (gauss_method_multi_triplet id
     (fun _ => (⟨⟨1, 2, 3⟩, ⟨4, 5, 6⟩, ⟨7, 8, 9⟩, ⟨0, 0, 1⟩,
       fun _ => 0⟩ : IterOut ℚ))
     (fun _ _ _ => ⟨1, 0, 0, 0, 0, 0, 1⟩) 3 (by norm_num)).2.2.1⟩

/-- Python list indexing semantics on a list of length `len`: for
`-len ≤ k < len` the element accessed is the one at `k mod len` (negative
indices count from the end). -/
def pyindex (len : ℕ) (k : ℤ) : ℕ := (k % (len : ℤ)).toNat

lemma pyindex_even (N i : ℕ) (hi : i < N) :
    pyindex (2 * N) (2 * (i : ℤ) - 2) =
      if i = 0 then 2 * N - 2 else 2 * i - 2 := by
  unfold pyindex
  by_cases h : i = 0
  · subst h
    rw [if_pos rfl]
    push_cast
    have h1 : (-2 : ℤ) % (2 * (N : ℤ)) =
        (2 * (N : ℤ) - 2) % (2 * (N : ℤ)) := by
      rw [show (2 * (N : ℤ) - 2) = (-2 : ℤ) + 2 * (N : ℤ) * 1 by
        ring, Int.add_mul_emod_self_left]
    rw [h1, Int.emod_eq_of_lt (by omega) (by omega)]
    omega
  · rw [if_neg h]
    push_cast
    rw [Int.emod_eq_of_lt (by omega) (by omega)]
    omega

lemma pyindex_odd (N i : ℕ) (hi : i < N) :
    pyindex (2 * N) (2 * (i : ℤ) - 1) =
      if i = 0 then 2 * N - 1 else 2 * i - 1 := by
  unfold pyindex
  by_cases h : i = 0
  · subst h
    rw [if_pos rfl]
    push_cast
    have h1 : (-1 : ℤ) % (2 * (N : ℤ)) =
        (2 * (N : ℤ) - 1) % (2 * (N : ℤ)) := by
      rw [show (2 * (N : ℤ) - 1) = (-1 : ℤ) + 2 * (N : ℤ) * 1 by
        ring, Int.add_mul_emod_self_left]
    rw [h1, Int.emod_eq_of_lt (by omega) (by omega)]
    omega
  · rw [if_neg h]
    push_cast
    rw [Int.emod_eq_of_lt (by omega) (by omega)]
    omega

/-- The common write pattern of `radec_obs_vec` and `radec_res_vec_rov`
(source lines 1143-1154 and 1158-1188): a `np.zeros((2*N,))` array receives,
for `i = 0, ..., N-1`, the pair `g i` at Python positions `2*i-2` and
`2*i-1` — negative for `i = 0`, so that observation 0 lands at the last two
slots. -/
noncomputable def pairScatter (g : ℕ → ℝ × ℝ) (N : ℕ) : ℕ → ℕ → ℝ
  | 0 => fun _ => 0
  | i + 1 =>
    Function.update
      (Function.update (pairScatter g N i)
        (pyindex (2 * N) (2 * (i : ℤ) - 2)) (g i).1)
      (pyindex (2 * N) (2 * (i : ℤ) - 1)) (g i).2

/-- Embedding of `radec_obs_vec(inds, iod_object_data)` (source lines
1143-1154): `obs i` is the observed `(ra, dec)` pair (in radians) of the
`i`-th requested observation, extracted by the body from the IOD data. -/
noncomputable def radec_obs_vec (obs : ℕ → ℝ × ℝ) (N : ℕ) : ℕ → ℝ :=
  pairScatter obs N N

/-- Embedding of `radec_res_vec_rov(x, inds, iod_object_data,
sat_observatories_data, rov)` (source lines 1158-1188): `comp i` is the
computed `(ra_comp, dec_comp)` pair of the `i`-th observation (produced by
the body from the element vector `x` via `orbel2xyz` and the observer
geometry); the residual entries are `angle_diff_rad` of the stored observed
value read from `rov` at the same rotated position. -/
noncomputable def radec_res_vec_rov (comp : ℕ → ℝ × ℝ) (rov : ℕ → ℝ)
    (N : ℕ) : ℕ → ℝ :=
  pairScatter (fun i =>
    (angle_diff_rad (rov (pyindex (2 * N) (2 * (i : ℤ) - 2))) (comp i).1,
     angle_diff_rad (rov (pyindex (2 * N) (2 * (i : ℤ) - 1))) (comp i).2)) N N

lemma pair_slots_ne (N i : ℕ) (hi : i < N) :
    pyindex (2 * N) (2 * (i : ℤ) - 2) ≠ pyindex (2 * N) (2 * (i : ℤ) - 1) := by
  rw [pyindex_even N i hi, pyindex_odd N i hi]
  by_cases h : i = 0 <;> simp [h] <;> omega

lemma pair_slots_ne_of_ne (N i m : ℕ) (hi : i < N) (hm : m < N)
    (hne : i ≠ m) :
    pyindex (2 * N) (2 * (i : ℤ) - 2) ≠ pyindex (2 * N) (2 * (m : ℤ) - 2) ∧
      pyindex (2 * N) (2 * (i : ℤ) - 2) ≠
        pyindex (2 * N) (2 * (m : ℤ) - 1) ∧
      pyindex (2 * N) (2 * (i : ℤ) - 1) ≠
        pyindex (2 * N) (2 * (m : ℤ) - 2) ∧
      pyindex (2 * N) (2 * (i : ℤ) - 1) ≠
        pyindex (2 * N) (2 * (m : ℤ) - 1) := by
  rw [pyindex_even N i hi, pyindex_odd N i hi, pyindex_even N m hm,
    pyindex_odd N m hm]
  refine ⟨?_, ?_, ?_, ?_⟩ <;>
    (by_cases h1 : i = 0 <;> by_cases h2 : m = 0 <;> simp [h1, h2] <;> omega)

lemma pairScatter_spec (g : ℕ → ℝ × ℝ) (N : ℕ) :
    ∀ m, m ≤ N → ∀ i, i < m →
      pairScatter g N m (pyindex (2 * N) (2 * (i : ℤ) - 2)) = (g i).1 ∧
      pairScatter g N m (pyindex (2 * N) (2 * (i : ℤ) - 1)) = (g i).2 := by
  intro m
  induction m with
  | zero => exact fun _ i hi => absurd hi (Nat.not_lt_zero i)
  | succ n ih =>
    intro hm i hi
    rw [pairScatter]
    by_cases h : i = n
    · subst h
      exact ⟨by
          rw [Function.update_noteq (pair_slots_ne N i (by omega)),
            Function.update_same],
        by rw [Function.update_same]⟩
    · have hd := pair_slots_ne_of_ne N i n (by omega) (by omega) h
      obtain ⟨ih1, ih2⟩ := ih (by omega) i (by omega)
      exact ⟨by rw [Function.update_noteq hd.2.1,
          Function.update_noteq hd.1, ih1],
        by rw [Function.update_noteq hd.2.2.2,
          Function.update_noteq hd.2.2.1, ih2]⟩

/-- C10 (confirmed): `radec_obs_vec` stores the `(ra, dec)` pair of the
`i`-th requested observation at positions `(2i-2) mod 2N` and
`(2i-1) mod 2N` of its length-`2N` output (Python negative indexing sends
observation 0 to the last two slots); `radec_res_vec_rov` writes with the
same rotated indexing and reads the observed values back from `rov` at the
same positions, so every entry of the residual vector is the
`angle_diff_rad` of the observed and computed angle of the same
observation; the last conjunct shows the `2N` rotated slots cover every
position of the vector. -/
theorem radec_residual_alignment (obs comp : ℕ → ℝ × ℝ) (N : ℕ)
    (hN : 1 ≤ N) :
    (∀ i < N,
      radec_obs_vec obs N (pyindex (2 * N) (2 * (i : ℤ) - 2)) = (obs i).1 ∧
      radec_obs_vec obs N (pyindex (2 * N) (2 * (i : ℤ) - 1)) = (obs i).2 ∧
      radec_res_vec_rov comp (radec_obs_vec obs N) N
          (pyindex (2 * N) (2 * (i : ℤ) - 2)) =
        angle_diff_rad (obs i).1 (comp i).1 ∧
      radec_res_vec_rov comp (radec_obs_vec obs N) N
          (pyindex (2 * N) (2 * (i : ℤ) - 1)) =
        angle_diff_rad (obs i).2 (comp i).2) ∧
    ∀ k < 2 * N, ∃ i < N,
      k = pyindex (2 * N) (2 * (i : ℤ) - 2) ∨
      k = pyindex (2 * N) (2 * (i : ℤ) - 1) := by
  constructor
  · intro i hi
    obtain ⟨ho1, ho2⟩ := pairScatter_spec obs N N le_rfl i hi
    obtain ⟨hr1, hr2⟩ := pairScatter_spec
      (fun i =>
        (angle_diff_rad (radec_obs_vec obs N
          (pyindex (2 * N) (2 * (i : ℤ) - 2))) (comp i).1,
         angle_diff_rad (radec_obs_vec obs N
          (pyindex (2 * N) (2 * (i : ℤ) - 1))) (comp i).2))
      N N le_rfl i hi
    have ho1' : radec_obs_vec obs N
        (pyindex (2 * N) (2 * (i : ℤ) - 2)) = (obs i).1 := ho1
    have ho2' : radec_obs_vec obs N
        (pyindex (2 * N) (2 * (i : ℤ) - 1)) = (obs i).2 := ho2
    refine ⟨ho1, ho2, ?_, ?_⟩
    · rw [radec_res_vec_rov, hr1]
      rw [ho1']
    · rw [radec_res_vec_rov, hr2]
      rw [ho2']
  · intro k hk
    rcases Nat.even_or_odd k with ⟨j, hj⟩ | ⟨j, hj⟩
    · by_cases hj0 : j = N - 1
      · refine ⟨0, by omega, Or.inl ?_⟩
        rw [pyindex_even N 0 (by omega), if_pos rfl]
        omega
      · refine ⟨j + 1, by omega, Or.inl ?_⟩
        rw [pyindex_even N (j + 1) (by omega), if_neg (by omega)]
        omega
    · by_cases hj0 : j = N - 1
      · refine ⟨0, by omega, Or.inr ?_⟩
        rw [pyindex_odd N 0 (by omega), if_pos rfl]
        omega
      · refine ⟨j + 1, by omega, Or.inr ?_⟩
        rw [pyindex_odd N (j + 1) (by omega), if_neg (by omega)]
        omega

/-- C10 (witness): the alignment at `N = 1`, `i = 0`, with constant zero
observed and computed angles. -/
theorem radec_residual_alignment_witness :
    radec_obs_vec (fun _ => ((0 : ℝ), 0)) 1
        (pyindex (2 * 1) (2 * ((0 : ℕ) : ℤ) - 2)) =
      ((fun _ => ((0 : ℝ), 0)) 0).1 ∧
      radec_res_vec_rov (fun _ => ((0 : ℝ), 0))
          (radec_obs_vec (fun _ => ((0 : ℝ), 0)) 1) 1
          (pyindex (2 * 1) (2 * ((0 : ℕ) : ℤ) - 2)) =
        angle_diff_rad ((fun _ => ((0 : ℝ), 0)) 0).1
          ((fun _ => ((0 : ℝ), 0)) 0).1 := by
  obtain ⟨h1, -, h3, -⟩ :=
    (radec_residual_alignment (fun _ => ((0 : ℝ), 0))
      (fun _ => ((0 : ℝ), 0)) 1 (by norm_num)).1 0 (by norm_num)
  exact ⟨h1, h3⟩
